import Mathlib

/-!
Verification of the player performance aggregation and ranking engine of
`inhouse_bot` (source: `src/inhouse_bot/cogs/stats_cog.py`).

The SQLAlchemy-backed data model (`Game`, `GameParticipant`, `PlayerRating`)
is embedded as plain Lean structures; the record store is a `Store` holding
the three tables as lists in insertion (rowid) order.  Database queries are
embedded as deterministic list operations: a `filter` for a `WHERE` clause,
a stable `mergeSort` for an `ORDER BY` (ties are left in store order, which
is what a deterministic engine reading rows in rowid order produces), and
`take` for a `LIMIT`.  Timestamps and ratings are modelled as integers:
the claims under study concern ordering, grouping and counting, none of
which depends on sub-unit values.
-/

namespace InhouseBot

/-- One immutable completed match: identifier, completion date, winning team
(`Game` in `inhouse_bot/sqlite/game.py`). -/
structure Game where
  id : Nat
  date : Int
  winner : Nat
deriving DecidableEq, Repr

/-- One row per (game, player): game reference, player reference, role played,
in-game champion, team, and the rating snapshot at the time of the game
(`GameParticipant` in `inhouse_bot/sqlite/game_participant.py`). -/
structure GameParticipant where
  game_id : Nat
  player_id : Nat
  role : String
  champion_id : Nat
  team : Nat
  mmr : Int
deriving DecidableEq, Repr

/-- Current rating of one player in one role
(`PlayerRating` in `inhouse_bot/sqlite/player_rating.py`). -/
structure PlayerRating where
  player_id : Nat
  role : String
  mmr : Int
deriving DecidableEq, Repr

/-- The record store: the three tables, rows in insertion (rowid) order. -/
structure Store where
  games : List Game
  participants : List GameParticipant
  ratings : List PlayerRating
deriving DecidableEq, Repr

/-- Modelled from the spec: `roles_list` of `inhouse_bot/sqlite/sqlite_utils.py`
is absent from the sources; the spec fixes the enumeration as
"one of a fixed enumerated set, e.g. top/jungle/mid/bottom/support". -/
def roles_list : List String := ["top", "jungle", "mid", "bot", "support"]

/-- Python dictionary key order: first occurrence of each key, duplicates
dropped.  This is the iteration order of the `defaultdict` built by
`mmr_history` and of the mappings returned by the aggregation helpers. -/
def dictKeys {α : Type} [DecidableEq α] : List α → List α
  | [] => []
  | k :: ks => k :: (dictKeys ks).filter (fun x => decide (x ≠ k))

theorem mem_dictKeys {α : Type} [DecidableEq α] (l : List α) (x : α) :
    x ∈ dictKeys l ↔ x ∈ l := by
  induction l with
  | nil => simp [dictKeys]
  | cons k ks ih =>
    simp only [dictKeys, List.mem_cons, List.mem_filter, ih]
    constructor
    · rintro (rfl | ⟨hx, _⟩)
      · exact Or.inl rfl
      · exact Or.inr hx
    · rintro (rfl | hx)
      · exact Or.inl rfl
      · by_cases hxk : x = k
        · exact Or.inl hxk
        · exact Or.inr ⟨hx, by simpa using hxk⟩

theorem dictKeys_nodup {α : Type} [DecidableEq α] (l : List α) :
    (dictKeys l).Nodup := by
  induction l with
  | nil => simp [dictKeys]
  | cons k ks ih =>
    refine List.Nodup.cons ?_ (ih.filter _)
    intro hk
    have := (List.mem_filter.mp hk).2
    simp at this

/-- The `query(Game, GameParticipant).join(GameParticipant)` join: each
participant row paired with its game.  Rows come back in participant
insertion order, each matched to the game row its foreign key references. -/
def joinGameParticipant (s : Store) : List (Game × GameParticipant) :=
  s.participants.filterMap
    (fun p => (s.games.find? (fun g => decide (g.id = p.game_id))).map (fun g => (g, p)))

/-- The filtered query of `mmr_history` (stats_cog.py lines 137-140):
participant rows of one player whose game is strictly after `date_start`. -/
def mmr_history_rows (s : Store) (pid : Nat) (date_start : Int) :
    List (Game × GameParticipant) :=
  (joinGameParticipant s).filter
    (fun gp => decide (gp.2.player_id = pid) && decide (gp.1.date > date_start))

/-- C5: the time lower bound filter `Game.date > date_start` admits exactly the
games strictly after the bound; a game dated exactly at the bound is excluded. -/
theorem mmr_history_rows_mem_iff (s : Store) (pid : Nat) (date_start : Int)
    (gp : Game × GameParticipant) :
    gp ∈ mmr_history_rows s pid date_start ↔
      gp ∈ joinGameParticipant s ∧ gp.2.player_id = pid ∧ date_start < gp.1.date := by
  simp [mmr_history_rows, List.mem_filter, and_assoc]

/-- C5 witness: a game dated exactly at the bound is excluded, one strictly
after it is included. -/
theorem mmr_history_rows_mem_iff_witness :
    (⟨⟨1, 10, 0⟩, ⟨1, 7, "mid", 3, 0, 25⟩⟩ : Game × GameParticipant) ∉
        mmr_history_rows ⟨[⟨1, 10, 0⟩], [⟨1, 7, "mid", 3, 0, 25⟩], []⟩ 7 10 ∧
      (⟨⟨1, 11, 0⟩, ⟨1, 7, "mid", 3, 0, 25⟩⟩ : Game × GameParticipant) ∈
        mmr_history_rows ⟨[⟨1, 11, 0⟩], [⟨1, 7, "mid", 3, 0, 25⟩], []⟩ 7 10 := by
  constructor
  · intro hmem
    have h := (mmr_history_rows_mem_iff ⟨[⟨1, 10, 0⟩], [⟨1, 7, "mid", 3, 0, 25⟩], []⟩
      7 10 ⟨⟨1, 10, 0⟩, ⟨1, 7, "mid", 3, 0, 25⟩⟩).mp hmem
    exact absurd h.2.2 (by decide)
  · exact (mmr_history_rows_mem_iff ⟨[⟨1, 11, 0⟩], [⟨1, 7, "mid", 3, 0, 25⟩], []⟩
      7 10 ⟨⟨1, 11, 0⟩, ⟨1, 7, "mid", 3, 0, 25⟩⟩).mpr ⟨by decide, rfl, by decide⟩

/-- Counting helper: summing, over a duplicate-free list of keys covering every
row, the number of rows carrying each key gives back the total row count. -/
theorem countP_key_sum {α κ : Type} [DecidableEq κ] (key : α → κ) (ks : List κ) :
    ks.Nodup → ∀ rows : List α, (∀ r ∈ rows, key r ∈ ks) →
      (ks.map (fun k => rows.countP (fun r => decide (key r = k)))).sum = rows.length := by
  induction ks with
  | nil =>
    intro _ rows hcov
    have hrows : rows = [] :=
      List.eq_nil_iff_forall_not_mem.mpr (fun r hr => by simpa using hcov r hr)
    simp [hrows]
  | cons k ks ih =>
    intro hnd rows hcov
    have hk : k ∉ ks := (List.nodup_cons.mp hnd).1
    have hnd2 : ks.Nodup := (List.nodup_cons.mp hnd).2
    have hcov2 : ∀ r ∈ rows.filter (fun r => !decide (key r = k)), key r ∈ ks := by
      intro r hr
      rcases List.mem_filter.mp hr with ⟨hrrows, hne⟩
      rcases List.mem_cons.mp (hcov r hrrows) with h | h
      · exfalso; simp [h] at hne
      · exact h
    have hterm : ∀ k2 ∈ ks, rows.countP (fun r => decide (key r = k2)) =
        (rows.filter (fun r => !decide (key r = k))).countP
          (fun r => decide (key r = k2)) := by
      intro k2 hk2
      have hne : k2 ≠ k := by rintro rfl; exact hk hk2
      rw [List.countP_filter]
      refine List.countP_congr ?_
      intro x hx
      constructor
      · intro h
        have hx2 : key x = k2 := of_decide_eq_true h
        simp [hx2, hne]
      · intro h
        simp only [Bool.and_eq_true] at h
        exact h.1
    have hrest : (ks.map (fun k2 =>
        (rows.filter (fun r => !decide (key r = k))).countP
          (fun r => decide (key r = k2)))).sum =
        (rows.filter (fun r => !decide (key r = k))).length :=
      ih hnd2 _ hcov2
    have hsplit : rows.length = rows.countP (fun r => decide (key r = k)) +
        (rows.filter (fun r => !decide (key r = k))).length := by
      rw [← List.countP_eq_length_filter]
      have := List.length_eq_countP_add_countP (fun r => decide (key r = k)) rows
      rw [this]
      congr 1
      refine List.countP_congr ?_
      intro x _
      by_cases h : key x = k <;> simp [h]
    calc ((k :: ks).map (fun k2 => rows.countP (fun r => decide (key r = k2)))).sum
        = rows.countP (fun r => decide (key r = k)) +
          (ks.map (fun k2 => rows.countP (fun r => decide (key r = k2)))).sum := by
          simp
      _ = rows.countP (fun r => decide (key r = k)) +
          (rows.filter (fun r => !decide (key r = k))).length := by
          rw [List.map_congr_left hterm, hrest]
      _ = rows.length := hsplit.symm

/-- Grouping rows by a key (Python `defaultdict` pattern) drops no row and
counts no row twice: the group sizes sum to the number of rows. -/
theorem group_lengths_sum {α κ : Type} [DecidableEq κ] (key : α → κ) (rows : List α) :
    ((dictKeys (rows.map key)).map
        (fun k => (rows.filter (fun r => decide (key r = k))).length)).sum =
      rows.length := by
  have hcov : ∀ r ∈ rows, key r ∈ dictKeys (rows.map key) := by
    intro r hr
    exact (mem_dictKeys _ _).mpr (List.mem_map.mpr ⟨r, hr, rfl⟩)
  have h := countP_key_sum key (dictKeys (rows.map key)) (dictKeys_nodup _) rows hcov
  rw [← h]
  refine congrArg List.sum (List.map_congr_left ?_)
  intro k _
  exact (List.countP_eq_length_filter _ _).symm

/-- The `defaultdict` built by `mmr_history` (stats_cog.py lines 142-146):
for each role played in the window, the chronological list of
(game date, rating snapshot) points.  The source keeps two parallel lists
`dates` and `mmr` filled in lockstep; they are zipped into pairs here. -/
def mmr_history_dict (s : Store) (pid : Nat) (date_start : Int) :
    List (String × List (Int × Int)) :=
  (dictKeys ((mmr_history_rows s pid date_start).map (fun gp => gp.2.role))).map
    (fun r => (r, ((mmr_history_rows s pid date_start).filter
        (fun gp => decide (gp.2.role = r))).map (fun gp => (gp.1.date, gp.2.mmr))))

/-- Lookup of `player.ratings[role]`: the current `PlayerRating` row of one
player in one role (at most one such row exists per the data model). -/
def playerRating? (s : Store) (pid : Nat) (role : String) : Option PlayerRating :=
  s.ratings.find? (fun r => decide (r.player_id = pid) && decide (r.role = role))

/-- The full `mmr_history` series (stats_cog.py lines 149-151): the historical
points of each role present in the dict, with one synthetic final point
(current time, current rating) appended.  `player.ratings[role]` raises
`KeyError` when the rating row is missing; that case is modelled by `getD 0`
and excluded by the rating-existence hypothesis in the theorems, matching the
data-model invariant that playing a role creates its rating row. -/
def mmr_history (s : Store) (pid : Nat) (date_start now : Int) :
    List (String × List (Int × Int)) :=
  (mmr_history_dict s pid date_start).map
    (fun e => (e.1, e.2 ++ [(now, ((playerRating? s pid e.1).map PlayerRating.mmr).getD 0)]))

/-- Qualifying participant rows of the aggregation helpers: one player, and an
optional strict time lower bound (absent = no bound), per spec invariant 3. -/
def qualifying_rows (s : Store) (pid : Nat) (date_start : Option Int) :
    List (Game × GameParticipant) :=
  (joinGameParticipant s).filter
    (fun gp => decide (gp.2.player_id = pid) &&
      (match date_start with
       | none => true
       | some b => decide (gp.1.date > b)))

/-- Modelled from the spec: `Player.get_roles_stats` (in
`inhouse_bot/sqlite/player.py`, absent from the sources) per §4.1 —
group the qualifying rows by role; for each group
`games = count`, `wins = count where team == game.winner`;
zero-game groups are absent since a group exists only for a role with a row. -/
def get_roles_stats (s : Store) (pid : Nat) (date_start : Option Int) :
    List (String × Nat × Nat) :=
  (dictKeys ((qualifying_rows s pid date_start).map (fun gp => gp.2.role))).map
    (fun r =>
      (r, ((qualifying_rows s pid date_start).filter
            (fun gp => decide (gp.2.role = r))).length,
        ((qualifying_rows s pid date_start).filter
            (fun gp => decide (gp.2.role = r))).countP
          (fun gp => decide (gp.1.winner = gp.2.team))))

/-- Modelled from the spec: `Player.get_champions_stats` (in
`inhouse_bot/sqlite/player.py`, absent from the sources) per §4.1 — the same
aggregation grouped by champion identifier.  The role attribute the spec also
stores per champion group is omitted: no claim under study depends on it. -/
def get_champions_stats (s : Store) (pid : Nat) (date_start : Option Int) :
    List (Nat × Nat × Nat) :=
  (dictKeys ((qualifying_rows s pid date_start).map (fun gp => gp.2.champion_id))).map
    (fun c =>
      (c, ((qualifying_rows s pid date_start).filter
            (fun gp => decide (gp.2.champion_id = c))).length,
        ((qualifying_rows s pid date_start).filter
            (fun gp => decide (gp.2.champion_id = c))).countP
          (fun gp => decide (gp.1.winner = gp.2.team))))

/-- C6: each qualifying participant row lands in exactly one role group, so the
per-role point counts of the `mmr_history` grouping sum to the number of
qualifying rows, and likewise the `games` counts of the role aggregation. -/
theorem games_sum_eq_row_count (s : Store) (pid : Nat) (date_start : Int)
    (bound : Option Int) :
    ((mmr_history_dict s pid date_start).map (fun e => e.2.length)).sum =
        (mmr_history_rows s pid date_start).length ∧
      ((get_roles_stats s pid bound).map (fun e => e.2.1)).sum =
        (qualifying_rows s pid bound).length := by
  constructor
  · have h := group_lengths_sum (fun gp : Game × GameParticipant => gp.2.role)
      (mmr_history_rows s pid date_start)
    rw [← h, mmr_history_dict, List.map_map]
    refine congrArg List.sum (List.map_congr_left ?_)
    intro k _
    simp
  · have h := group_lengths_sum (fun gp : Game × GameParticipant => gp.2.role)
      (qualifying_rows s pid bound)
    rw [← h, get_roles_stats, List.map_map]
    refine congrArg List.sum (List.map_congr_left ?_)
    intro k _
    simp

/-- A joined row's game component is a row of the game table. -/
theorem join_game_mem (s : Store) (gp : Game × GameParticipant)
    (h : gp ∈ joinGameParticipant s) : gp.1 ∈ s.games := by
  simp only [joinGameParticipant, List.mem_filterMap] at h
  obtain ⟨p, _, hfind⟩ := h
  cases hfound : s.games.find? (fun g => decide (g.id = p.game_id)) with
  | none => rw [hfound] at hfind; simp at hfind
  | some g =>
    rw [hfound] at hfind
    simp only [Option.map] at hfind
    obtain rfl := Option.some.inj hfind
    exact List.mem_of_find?_eq_some hfound

/-- C3 counterexample: a player holding a current "top" rating row but no
qualifying participant row gets an empty `mmr_history` — no single-point "top"
series is produced, although the current rating row exists. -/
theorem mmr_history_omits_rated_gameless_role :
    mmr_history ⟨[], [], [⟨1, "top", 25⟩]⟩ 1 0 100 = [] ∧
      playerRating? ⟨[], [], [⟨1, "top", 25⟩]⟩ 1 "top" = some ⟨1, "top", 25⟩ := by
  constructor <;> rfl

/-- C3 (amended): a role appears in the `mmr_history` output exactly when the
player has at least one qualifying participant row in that role inside the
window; a role with a current rating row but no qualifying game, and a role
never played at all, are both omitted. -/
theorem mmr_history_roles_iff (s : Store) (pid : Nat) (date_start now : Int)
    (role : String) :
    role ∈ (mmr_history s pid date_start now).map Prod.fst ↔
      ∃ gp ∈ mmr_history_rows s pid date_start, gp.2.role = role := by
  simp only [mmr_history, mmr_history_dict, List.map_map, List.mem_map,
    Function.comp]
  constructor
  · rintro ⟨k, hk, rfl⟩
    have := (mem_dictKeys _ _).mp hk
    rcases List.mem_map.mp this with ⟨gp, hgp, hrole⟩
    exact ⟨gp, hgp, hrole⟩
  · rintro ⟨gp, hgp, rfl⟩
    exact ⟨gp.2.role,
      (mem_dictKeys _ _).mpr (List.mem_map.mpr ⟨gp, hgp, rfl⟩), rfl⟩

/-- C3 witness: with one qualifying "mid" game, "mid" is listed and "top"
(rated but without qualifying games) is not. -/
theorem mmr_history_roles_iff_witness :
    "mid" ∈ (mmr_history ⟨[⟨1, 5, 0⟩], [⟨1, 1, "mid", 7, 0, 42⟩],
        [⟨1, "mid", 44⟩, ⟨1, "top", 30⟩]⟩ 1 0 100).map Prod.fst ∧
      "top" ∉ (mmr_history ⟨[⟨1, 5, 0⟩], [⟨1, 1, "mid", 7, 0, 42⟩],
        [⟨1, "mid", 44⟩, ⟨1, "top", 30⟩]⟩ 1 0 100).map Prod.fst := by
  constructor
  · exact (mmr_history_roles_iff _ 1 0 100 "mid").mpr
      ⟨⟨⟨1, 5, 0⟩, ⟨1, 1, "mid", 7, 0, 42⟩⟩, by decide, rfl⟩
  · intro h
    exact absurd ((mmr_history_roles_iff _ 1 0 100 "top").mp h) (by decide)

/-- C4: a series of `mmr_history` is the chronological historical points of its
role followed by exactly one synthetic final point carrying the current
`PlayerRating` value at the current time, and its timestamps never decrease.
The hypotheses are the data-model invariants: the played role has its rating
row, game rows are stored in chronological (append) order, and the current
time is no earlier than any stored game. -/
theorem mmr_history_series_shape (s : Store) (pid : Nat) (date_start now : Int)
    (role : String) (series : List (Int × Int)) (r : PlayerRating)
    (hmem : (role, series) ∈ mmr_history s pid date_start now)
    (hr : playerRating? s pid role = some r)
    (hchron : ((joinGameParticipant s).map (fun gp => gp.1.date)).Pairwise (· ≤ ·))
    (hnow : ∀ g ∈ s.games, g.date ≤ now) :
    series = ((mmr_history_rows s pid date_start).filter
          (fun gp => decide (gp.2.role = role))).map (fun gp => (gp.1.date, gp.2.mmr))
        ++ [(now, r.mmr)] ∧
      (series.map Prod.fst).Pairwise (· ≤ ·) := by
  simp only [mmr_history, mmr_history_dict, List.map_map, List.mem_map,
    Function.comp] at hmem
  obtain ⟨k, hk, heq⟩ := hmem
  obtain ⟨hkrole, hseries⟩ := Prod.mk.inj heq
  subst hkrole
  rw [hr] at hseries
  simp only [Option.map, Option.getD] at hseries
  constructor
  · exact hseries.symm
  · have hsub : (((mmr_history_rows s pid date_start).filter
        (fun gp => decide (gp.2.role = k))).map (fun gp => gp.1.date)).Sublist
        ((joinGameParticipant s).map (fun gp => gp.1.date)) := by
      refine List.Sublist.map _ ?_
      exact (List.filter_sublist _).trans (List.filter_sublist _)
    have hhist : (((mmr_history_rows s pid date_start).filter
        (fun gp => decide (gp.2.role = k))).map
          (fun gp => gp.1.date)).Pairwise (· ≤ ·) :=
      hchron.sublist hsub
    have hbound : ∀ d ∈ ((mmr_history_rows s pid date_start).filter
        (fun gp => decide (gp.2.role = k))).map (fun gp => gp.1.date), d ≤ now := by
      intro d hd
      rcases List.mem_map.mp hd with ⟨gp, hgp, rfl⟩
      have hjoin : gp ∈ joinGameParticipant s :=
        List.mem_of_mem_filter (List.mem_of_mem_filter hgp)
      exact hnow gp.1 (join_game_mem s gp hjoin)
    rw [← hseries]
    rw [List.map_append, List.map_map]
    refine List.pairwise_append.mpr ⟨?_, ?_, ?_⟩
    · simpa [Function.comp] using hhist
    · simp
    · intro a ha b hb
      simp only [List.map_cons, List.map_nil, List.mem_singleton] at hb
      subst hb
      refine hbound a ?_
      simpa [Function.comp] using ha

/-- C4 witness: the shape theorem applied to a one-game store whose series is
the historical point (5, 42) followed by the synthetic point (100, 44). -/
theorem mmr_history_series_shape_witness :
    ([(5, 42), (100, 44)] : List (Int × Int)) =
        ((mmr_history_rows ⟨[⟨1, 5, 0⟩], [⟨1, 1, "mid", 7, 0, 42⟩], [⟨1, "mid", 44⟩]⟩
              1 0).filter (fun gp => decide (gp.2.role = "mid"))).map
            (fun gp => (gp.1.date, gp.2.mmr)) ++ [(100, (44 : Int))] ∧
      (([(5, 42), (100, 44)] : List (Int × Int)).map Prod.fst).Pairwise (· ≤ ·) :=
  mmr_history_series_shape ⟨[⟨1, 5, 0⟩], [⟨1, 1, "mid", 7, 0, 42⟩], [⟨1, "mid", 44⟩]⟩
    1 0 100 "mid" [(5, 42), (100, 44)] ⟨1, "mid", 44⟩
    (by decide) (by decide) (by decide) (by decide)

/-- Descending-rating row order produced by `ORDER BY - PlayerRating.mmr`. -/
def mmr_desc (a b : PlayerRating) : Prop := b.mmr ≤ a.mmr

instance : DecidableRel mmr_desc :=
  fun a b => inferInstanceAs (Decidable (b.mmr ≤ a.mmr))

instance : IsTotal PlayerRating mmr_desc := ⟨fun a b => le_total b.mmr a.mmr⟩

instance : IsTrans PlayerRating mmr_desc := ⟨fun _ _ _ h1 h2 => le_trans h2 h1⟩

/-- The rating query of `ranking` (stats_cog.py lines 82-85) before the
`LIMIT`: rating rows of one role ordered by rating descending.  The `ORDER BY`
carries no secondary key, so rows of equal rating are emitted in store (rowid)
order: a stable sort of the filtered table. -/
def role_ranking_full (s : Store) (role : String) : List PlayerRating :=
  (s.ratings.filter (fun r => decide (r.role = role))).insertionSort mmr_desc

/-- The leaderboard of `ranking`: the same query truncated by `limit(20)`. -/
def role_ranking (s : Store) (role : String) : List PlayerRating :=
  (role_ranking_full s role).take 20

/-- C1: leaderboard entries are sorted descending by rating; two entries of
exactly equal rating keep their fixed store order — the deterministic
secondary key — and the result depends on the rating table alone, so two calls
on an unchanged store return the identical ordering. -/
theorem ranking_sorted_deterministic (s : Store) (role : String) :
    (role_ranking s role).Pairwise (fun a b => b.mmr ≤ a.mmr) ∧
      (∀ a b : PlayerRating,
        [a, b].Sublist (s.ratings.filter (fun r => decide (r.role = role))) →
          a.mmr = b.mmr → [a, b].Sublist (role_ranking_full s role)) ∧
      ∀ s2 : Store, s.ratings = s2.ratings →
        role_ranking s role = role_ranking s2 role := by
  refine ⟨?_, ?_, ?_⟩
  · exact List.Pairwise.sublist (List.take_sublist _ _)
      (List.sorted_insertionSort mmr_desc _)
  · intro a b hsub hmmr
    exact List.pair_sublist_insertionSort (le_of_eq hmmr.symm) hsub
  · intro s2 h
    unfold role_ranking role_ranking_full
    rw [h]

/-- C1 witness: two equal-rated "mid" players keep their store order in the
sorted query, and re-running on the same store reproduces the leaderboard. -/
theorem ranking_sorted_deterministic_witness :
    ([⟨1, "mid", 50⟩, ⟨2, "mid", 50⟩] : List PlayerRating).Sublist
        (role_ranking_full ⟨[], [], [⟨3, "mid", 60⟩, ⟨1, "mid", 50⟩, ⟨2, "mid", 50⟩]⟩
          "mid") ∧
      role_ranking ⟨[], [], [⟨3, "mid", 60⟩, ⟨1, "mid", 50⟩, ⟨2, "mid", 50⟩]⟩ "mid" =
        role_ranking ⟨[], [], [⟨3, "mid", 60⟩, ⟨1, "mid", 50⟩, ⟨2, "mid", 50⟩]⟩ "mid" :=
  ⟨(ranking_sorted_deterministic _ "mid").2.1 _ _ (by decide) rfl,
    (ranking_sorted_deterministic _ "mid").2.2 _ rfl⟩

/-- A message sent by the `ranking` command: the role-not-understood error or
the leaderboard table built from the rating query. -/
inductive RankingReply
  | roleNotUnderstood
  | leaderboardTable (rows : List PlayerRating)
deriving DecidableEq, Repr

/-- The `ranking` command (stats_cog.py lines 73-95).  The rapidfuzz call
`process.extractOne(role, roles_list)` is an external collaborator, abstracted
as the `extractOne` argument returning the best match and its score.  The
source sends the error message when the score is below 80 but has no early
return, so it always proceeds to run the rating query and send the table. -/
def ranking (s : Store) (extractOne : String → String × Nat) (role : String) :
    List RankingReply :=
  (if (extractOne role).2 < 80 then [RankingReply.roleNotUnderstood] else []) ++
    [RankingReply.leaderboardTable (role_ranking s (extractOne role).1)]

/-- C2: with a best fuzzy score below the threshold (here 50 < 80) the command
reports the resolution failure and nevertheless executes the rating query,
sending a leaderboard for the low-confidence match. -/
theorem ranking_runs_query_despite_low_score :
    ranking ⟨[], [], [⟨2, "top", 60⟩]⟩ (fun _ => ("top", 50)) "xyz" =
      [RankingReply.roleNotUnderstood,
        RankingReply.leaderboardTable [⟨2, "top", 60⟩]] := by
  decide

/-- The Result column of `history` (stats_cog.py line 50). -/
def gameResult (g : Game) (p : GameParticipant) : String :=
  if g.winner = p.team then "Win" else "Loss"

/-- C7: a participant's outcome is "Win" exactly when their team equals the
game's winning team, and the wins figure of every grouping — the role groups
and the champion groups alike — counts exactly the rows satisfying that
predicate. -/
theorem wins_count_winner_rows :
    (∀ (g : Game) (p : GameParticipant), gameResult g p = "Win" ↔ g.winner = p.team) ∧
      (∀ (s : Store) (pid : Nat) (bound : Option Int) (e : String × Nat × Nat),
        e ∈ get_roles_stats s pid bound →
          e.2.2 = ((qualifying_rows s pid bound).filter
              (fun gp => decide (gp.2.role = e.1))).countP
            (fun gp => decide (gameResult gp.1 gp.2 = "Win"))) ∧
      ∀ (s : Store) (pid : Nat) (bound : Option Int) (e : Nat × Nat × Nat),
        e ∈ get_champions_stats s pid bound →
          e.2.2 = ((qualifying_rows s pid bound).filter
              (fun gp => decide (gp.2.champion_id = e.1))).countP
            (fun gp => decide (gameResult gp.1 gp.2 = "Win")) := by
  have hiff : ∀ (g : Game) (p : GameParticipant),
      gameResult g p = "Win" ↔ g.winner = p.team := by
    intro g p
    constructor
    · intro h
      by_cases hw : g.winner = p.team
      · exact hw
      · rw [gameResult, if_neg hw] at h
        exact absurd h (by decide)
    · intro h
      rw [gameResult, if_pos h]
  refine ⟨hiff, ?_, ?_⟩
  · intro s pid bound e he
    simp only [get_roles_stats, List.mem_map] at he
    obtain ⟨r, _, rfl⟩ := he
    refine List.countP_congr ?_
    intro gp _
    simp only [decide_eq_true_eq]
    exact (hiff gp.1 gp.2).symm
  · intro s pid bound e he
    simp only [get_champions_stats, List.mem_map] at he
    obtain ⟨c, _, rfl⟩ := he
    refine List.countP_congr ?_
    intro gp _
    simp only [decide_eq_true_eq]
    exact (hiff gp.1 gp.2).symm

/-- C7 witness: on a store with two games for one player (one win, one loss)
both the "mid" role group and the champion-7 group count their wins as the
rows labelled "Win". -/
theorem wins_count_winner_rows_witness :
    (((("mid" : String), (2 : Nat), (1 : Nat)) : String × Nat × Nat).2.2 =
        ((qualifying_rows ⟨[⟨1, 5, 0⟩, ⟨2, 6, 1⟩],
              [⟨1, 1, "mid", 7, 0, 42⟩, ⟨2, 1, "mid", 8, 0, 43⟩], []⟩ 1 none).filter
            (fun gp => decide (gp.2.role = (("mid" : String), (2 : Nat), (1 : Nat)).1))).countP
          (fun gp => decide (gameResult gp.1 gp.2 = "Win"))) ∧
      (((7 : Nat), (1 : Nat), (1 : Nat)) : Nat × Nat × Nat).2.2 =
        ((qualifying_rows ⟨[⟨1, 5, 0⟩, ⟨2, 6, 1⟩],
              [⟨1, 1, "mid", 7, 0, 42⟩, ⟨2, 1, "mid", 8, 0, 43⟩], []⟩ 1 none).filter
            (fun gp => decide (gp.2.champion_id = ((7 : Nat), (1 : Nat), (1 : Nat)).1))).countP
          (fun gp => decide (gameResult gp.1 gp.2 = "Win")) :=
  ⟨wins_count_winner_rows.2.1 ⟨[⟨1, 5, 0⟩, ⟨2, 6, 1⟩],
      [⟨1, 1, "mid", 7, 0, 42⟩, ⟨2, 1, "mid", 8, 0, 43⟩], []⟩ 1 none
      ("mid", 2, 1) (by decide),
    wins_count_winner_rows.2.2 ⟨[⟨1, 5, 0⟩, ⟨2, 6, 1⟩],
      [⟨1, 1, "mid", 7, 0, 42⟩, ⟨2, 1, "mid", 8, 0, 43⟩], []⟩ 1 none
      (7, 1, 1) (by decide)⟩

/-- The win-rate computation `wins / games * 100` of `mmr` (line 116) and
`champions_stats` (line 182); the zero-denominator case is the `none` branch. -/
def winrate_pct (wins games : Nat) : Option ℚ :=
  if games = 0 then none else some ((wins : ℚ) / games * 100)

/-- C8: when every group present carries at least one game the win-rate
division is defined on every group, and the aggregations indeed only emit
groups with at least one game — the zero-denominator branch is unreachable. -/
theorem winrate_never_divides_by_zero :
    (∀ stats : List (String × Nat × Nat), (∀ e ∈ stats, 1 ≤ e.2.1) →
        ∀ e ∈ stats, (winrate_pct e.2.2 e.2.1).isSome = true) ∧
      (∀ (s : Store) (pid : Nat) (bound : Option Int),
        ∀ e ∈ get_roles_stats s pid bound, 1 ≤ e.2.1) ∧
      ∀ (s : Store) (pid : Nat) (bound : Option Int),
        ∀ e ∈ get_champions_stats s pid bound, 1 ≤ e.2.1 := by
  refine ⟨?_, ?_, ?_⟩
  · intro stats hpos e he
    have h1 : e.2.1 ≠ 0 := by have := hpos e he; omega
    rw [winrate_pct, if_neg h1]
    rfl
  · intro s pid bound e he
    simp only [get_roles_stats, List.mem_map] at he
    obtain ⟨r, hr, rfl⟩ := he
    rcases List.mem_map.mp ((mem_dictKeys _ _).mp hr) with ⟨gp, hgp, hkey⟩
    exact List.length_pos_of_mem
      (List.mem_filter.mpr ⟨hgp, by simp [hkey]⟩)
  · intro s pid bound e he
    simp only [get_champions_stats, List.mem_map] at he
    obtain ⟨c, hc, rfl⟩ := he
    rcases List.mem_map.mp ((mem_dictKeys _ _).mp hc) with ⟨gp, hgp, hkey⟩
    exact List.length_pos_of_mem
      (List.mem_filter.mpr ⟨hgp, by simp [hkey]⟩)

/-- C8 witness: a one-win two-game group has a defined win rate. -/
theorem winrate_never_divides_by_zero_witness :
    (winrate_pct 1 2).isSome = true :=
  winrate_never_divides_by_zero.1 [("mid", 2, 1)] (by decide) ("mid", 2, 1) (by decide)

/-- C9 counterexample: the `mmr_history` output embeds the current wall-clock
reading in its synthetic final point, so re-running the query on an unchanged
store at a later clock reading yields a different result. -/
theorem mmr_history_depends_on_clock :
    mmr_history ⟨[⟨1, 5, 0⟩], [⟨1, 1, "mid", 7, 0, 42⟩], [⟨1, "mid", 44⟩]⟩ 1 0 100 ≠
      mmr_history ⟨[⟨1, 5, 0⟩], [⟨1, 1, "mid", 7, 0, 42⟩], [⟨1, "mid", 44⟩]⟩ 1 0 200 := by
  decide

/-- Python string comparison: lexicographic on character code points, as used
by `sorted(table, key=lambda x: x[1])`. -/
def charListLe : List Char → List Char → Bool
  | [], _ => true
  | _ :: _, [] => false
  | a :: as, b :: bs =>
    if a.toNat < b.toNat then true
    else if b.toNat < a.toNat then false
    else charListLe as bs

/-- Python `<=` on strings. -/
def strLe (a b : String) : Bool := charListLe a.data b.data

theorem charListLe_trans : ∀ as bs cs : List Char, charListLe as bs = true →
    charListLe bs cs = true → charListLe as cs = true
  | [], _, _, _, _ => rfl
  | _ :: _, [], _, h, _ => by simp [charListLe] at h
  | _ :: _, _ :: _, [], _, h => by simp [charListLe] at h
  | a :: as, b :: bs, c :: cs, h1, h2 => by
    simp only [charListLe] at h1 h2 ⊢
    by_cases hab : a.toNat < b.toNat
    · by_cases hbc : b.toNat < c.toNat
      · simp [show a.toNat < c.toNat from by omega]
      · by_cases hcb : c.toNat < b.toNat
        · simp [hbc, hcb] at h2
        · simp [show a.toNat < c.toNat from by omega]
    · by_cases hba : b.toNat < a.toNat
      · simp [hab, hba] at h1
      · by_cases hbc : b.toNat < c.toNat
        · simp [show a.toNat < c.toNat from by omega]
        · by_cases hcb : c.toNat < b.toNat
          · simp [hbc, hcb] at h2
          · simp [hab, hba] at h1
            simp [hbc, hcb] at h2
            have hac : ¬a.toNat < c.toNat := by omega
            have hca : ¬c.toNat < a.toNat := by omega
            simp [hac, hca]
            exact charListLe_trans as bs cs h1 h2

theorem charListLe_total : ∀ as bs : List Char,
    charListLe as bs = true ∨ charListLe bs as = true
  | [], _ => Or.inl rfl
  | _ :: _, [] => Or.inr rfl
  | a :: as, b :: bs => by
    simp only [charListLe]
    by_cases hab : a.toNat < b.toNat
    · left; simp [hab]
    · by_cases hba : b.toNat < a.toNat
      · right; simp [hba]
      · rcases charListLe_total as bs with h | h
        · left; simp [hab, hba, h]
        · right; simp [hab, hba, h]

/-- Modelled from inflect: `engine.ordinal(n)` renders the decimal digits of
`n` followed by the ordinal suffix (st/nd/rd/th, with the 11-13 exception). -/
def ordinal (n : Nat) : String :=
  toString n ++
    (if n % 100 = 11 ∨ n % 100 = 12 ∨ n % 100 = 13 then "th"
     else if n % 10 = 1 then "st"
     else if n % 10 = 2 then "nd"
     else if n % 10 = 3 then "rd"
     else "th")

/-- Value of the leading decimal digits of a formatted ordinal cell: the
numeric rank the cell displays. -/
def ordinalValueAux : List Char → Nat → Nat
  | [], acc => acc
  | c :: cs, acc =>
    if c.isDigit then ordinalValueAux cs (10 * acc + (c.toNat - 48)) else acc

/-- Numeric rank displayed by an ordinal string. -/
def ordinalValue (s : String) : Nat := ordinalValueAux s.data 0

/-- Row order used by `rank` (stats_cog.py line 68): Python
`sorted(table, key=lambda x: x[1])` compares only the ordinal-string column. -/
def ordinalCellLe (a b : String × String) : Prop := strLe a.2 b.2 = true

instance : DecidableRel ordinalCellLe :=
  fun a b => inferInstanceAs (Decidable (strLe a.2 b.2 = true))

instance : IsTrans (String × String) ordinalCellLe :=
  ⟨fun a b c h1 h2 => charListLe_trans a.2.data b.2.data c.2.data h1 h2⟩

instance : IsTotal (String × String) ordinalCellLe :=
  ⟨fun a b => charListLe_total a.2.data b.2.data⟩

/-- The table built by `rank` (stats_cog.py lines 61-68): one row
(capitalized role, ordinal rank) per rated role, then
`sorted(table, key=lambda x: x[1])` — a stable sort on the ordinal string. -/
def rank_table (ratings : List (String × Nat)) : List (String × String) :=
  (ratings.map (fun rr => (rr.1.capitalize, ordinal rr.2))).insertionSort ordinalCellLe

/-- For single-digit ranks, ordinal-string order and numeric order coincide,
and the displayed digits read back to the rank. -/
theorem ordinal_single_digit_facts :
    ∀ m < 10, ∀ n < 10,
      (strLe (ordinal m) (ordinal n) = true ↔ m ≤ n) ∧
        ordinalValue (ordinal m) = m := by
  decide

/-- C10: the `rank` rows are ordered by ascending lexicographic comparison of
the formatted ordinal strings; when every rank is at most 9 this equals
ascending numeric rank order, but for ranks 2 and 10 the displayed order puts
"10th" before "2nd", differing from ascending numeric order. -/
theorem rank_table_ordinal_string_order (ratings : List (String × Nat)) :
    (rank_table ratings).Pairwise (fun a b => strLe a.2 b.2 = true) ∧
      ((∀ p ∈ ratings, p.2 ≤ 9) →
        (rank_table ratings).Pairwise
          (fun a b => ordinalValue a.2 ≤ ordinalValue b.2)) ∧
      rank_table [("top", 2), ("jungle", 10)] = [("Jungle", "10th"), ("Top", "2nd")] ∧
      ¬(rank_table [("top", 2), ("jungle", 10)]).Pairwise
          (fun a b => ordinalValue a.2 ≤ ordinalValue b.2) := by
  refine ⟨List.sorted_insertionSort ordinalCellLe _, ?_, by decide, by decide⟩
  intro hle
  refine List.Pairwise.imp_of_mem ?_ (List.sorted_insertionSort ordinalCellLe _)
  intro a b ha hb hab
  have ha2 := (List.mem_insertionSort ordinalCellLe).mp ha
  have hb2 := (List.mem_insertionSort ordinalCellLe).mp hb
  rcases List.mem_map.mp ha2 with ⟨p, hp, rfl⟩
  rcases List.mem_map.mp hb2 with ⟨q, hq, rfl⟩
  have hm : p.2 < 10 := by have := hle p hp; omega
  have hn : q.2 < 10 := by have := hle q hq; omega
  have hab2 : strLe (ordinal p.2) (ordinal q.2) = true := hab
  have h1 := (ordinal_single_digit_facts p.2 hm q.2 hn).1.mp hab2
  have h2 := (ordinal_single_digit_facts p.2 hm q.2 hn).2
  have h3 := (ordinal_single_digit_facts q.2 hn p.2 hm).2
  simpa [h2, h3] using h1

/-- C10 witness: with ranks 3 and 1 (both single-digit) the displayed order is
ascending numeric order. -/
theorem rank_table_ordinal_string_order_witness :
    (rank_table [("top", 3), ("mid", 1)]).Pairwise
      (fun a b => ordinalValue a.2 ≤ ordinalValue b.2) :=
  (rank_table_ordinal_string_order [("top", 3), ("mid", 1)]).2.1 (by decide)

/-- Modelled from the spec: `PlayerRating.get_rank`
(in `inhouse_bot/sqlite/player_rating.py`, absent from the sources) per §4.2 —
the 1-based position the rating row occupies in the full untruncated
descending-by-rating ordering of its role, computed with the same ordering
rule as the leaderboard. -/
def get_rank (s : Store) (r : PlayerRating) : Nat :=
  (role_ranking_full s r.role).indexOf r + 1

/-- The `rank` command table for one player (stats_cog.py lines 61-68): one
row per rating row of the player, carrying its global rank, sorted on the
ordinal-string column. -/
def rank_rows (s : Store) (pid : Nat) : List (String × String) :=
  rank_table ((s.ratings.filter (fun r => decide (r.player_id = pid))).map
    (fun r => (r.role, get_rank s r)))

/-- C9 (amended): every embedded query — leaderboard, the two aggregations,
the rank operation (both the ordinal position and the full `rank` table) and
the rating history — is a deterministic pure function of the store contents,
its explicit arguments and, for `mmr_history`, whose output contains the
synthetic now-point, the current-time reading: with all of these unchanged,
re-running yields identical results. -/
theorem queries_deterministic (s s2 : Store) (pid : Nat) (role : String)
    (date_start : Int) (bound : Option Int) (now : Int) (r : PlayerRating)
    (h : s = s2) :
    role_ranking s role = role_ranking s2 role ∧
      get_roles_stats s pid bound = get_roles_stats s2 pid bound ∧
      get_champions_stats s pid bound = get_champions_stats s2 pid bound ∧
      get_rank s r = get_rank s2 r ∧
      rank_rows s pid = rank_rows s2 pid ∧
      mmr_history s pid date_start now = mmr_history s2 pid date_start now := by
  subst h
  exact ⟨rfl, rfl, rfl, rfl, rfl, rfl⟩

/-- C9 witness: the determinism theorem applied to a concrete store. -/
theorem queries_deterministic_witness :
    role_ranking ⟨[⟨1, 5, 0⟩], [⟨1, 1, "mid", 7, 0, 42⟩], [⟨1, "mid", 44⟩]⟩ "mid" =
        role_ranking ⟨[⟨1, 5, 0⟩], [⟨1, 1, "mid", 7, 0, 42⟩], [⟨1, "mid", 44⟩]⟩ "mid" ∧
      get_roles_stats ⟨[⟨1, 5, 0⟩], [⟨1, 1, "mid", 7, 0, 42⟩], [⟨1, "mid", 44⟩]⟩ 1 none =
        get_roles_stats ⟨[⟨1, 5, 0⟩], [⟨1, 1, "mid", 7, 0, 42⟩], [⟨1, "mid", 44⟩]⟩ 1 none ∧
      get_champions_stats ⟨[⟨1, 5, 0⟩], [⟨1, 1, "mid", 7, 0, 42⟩], [⟨1, "mid", 44⟩]⟩ 1 none =
        get_champions_stats ⟨[⟨1, 5, 0⟩], [⟨1, 1, "mid", 7, 0, 42⟩], [⟨1, "mid", 44⟩]⟩ 1 none ∧
      get_rank ⟨[⟨1, 5, 0⟩], [⟨1, 1, "mid", 7, 0, 42⟩], [⟨1, "mid", 44⟩]⟩ ⟨1, "mid", 44⟩ =
        get_rank ⟨[⟨1, 5, 0⟩], [⟨1, 1, "mid", 7, 0, 42⟩], [⟨1, "mid", 44⟩]⟩ ⟨1, "mid", 44⟩ ∧
      rank_rows ⟨[⟨1, 5, 0⟩], [⟨1, 1, "mid", 7, 0, 42⟩], [⟨1, "mid", 44⟩]⟩ 1 =
        rank_rows ⟨[⟨1, 5, 0⟩], [⟨1, 1, "mid", 7, 0, 42⟩], [⟨1, "mid", 44⟩]⟩ 1 ∧
      mmr_history ⟨[⟨1, 5, 0⟩], [⟨1, 1, "mid", 7, 0, 42⟩], [⟨1, "mid", 44⟩]⟩ 1 0 100 =
        mmr_history ⟨[⟨1, 5, 0⟩], [⟨1, 1, "mid", 7, 0, 42⟩], [⟨1, "mid", 44⟩]⟩ 1 0 100 :=
  queries_deterministic _ _ 1 "mid" 0 none 100 ⟨1, "mid", 44⟩ rfl

end InhouseBot
